import Mathlib

/-!
Shallow embedding, in Lean 4, of the market time-series core of this
repository: the SMA reversal detector of `zz_Legacy/MarketMonitorLivev6.py`
and the cache / fetch / indicator / trend-classifier functions of
`python/SectorIndexv12.py`.  Numeric values are modelled as rationals;
pandas NaN cells are modelled as `Option` values (`none` = NaN).
-/

/-! ## Reversal detector (`MarketMonitorLivev6.find_sma_reversals`) -/

/-- One row of the input frame: a date (index) together with the raw-price
column and the smoothed (SMA) column; `none` models a NaN cell. -/
structure Row where
  date : Nat
  raw : Option ℚ
  sma : Option ℚ
deriving DecidableEq

/-- A row surviving `dropna()`: both columns present. -/
structure VRow where
  date : Nat
  raw : ℚ
  sma : ℚ
deriving DecidableEq

/-- Kind tag of an emitted reversal. -/
inductive RevKind where
  | peak
  | trough
deriving DecidableEq

/-- An emitted reversal tuple `(last_date, df.loc[last_date, raw_col], kind)`. -/
structure Reversal where
  date : Nat
  price : ℚ
  kind : RevKind
deriving DecidableEq

/-- `df[[raw_col, sma_col]].dropna()`: keep rows where both cells are present. -/
def validData (df : List Row) : List VRow :=
  df.filterMap (fun r =>
    match r.raw, r.sma with
    | some a, some b => some ⟨r.date, a, b⟩
    | _, _ => none)

/-- `df.loc[d, raw_col]`: the raw-column value of the first row with date `d`
(junk `0` when absent or NaN). -/
def rawAt (df : List Row) (d : Nat) : ℚ :=
  match df.find? (fun r => r.date == d) with
  | some r => r.raw.getD 0
  | none => 0

/-- The `for date, row in valid_data.iterrows()` loop of `find_sma_reversals`,
carrying `last_sma_val`, `last_date` and `trend` through the remaining rows. -/
def revLoop (df : List Row) (t : ℚ) (lastSma : ℚ) (lastDate : Nat) (trend : ℤ) :
    List VRow → List Reversal
  | [] => []
  | r :: rest =>
    if trend = 0 then
      if r.sma ≥ lastSma * (1 + t) then
        revLoop df t r.sma r.date 1 rest
      else if r.sma ≤ lastSma * (1 - t) then
        revLoop df t r.sma r.date (-1) rest
      else
        revLoop df t lastSma lastDate 0 rest
    else if trend = 1 then
      if r.sma > lastSma then
        revLoop df t r.sma r.date 1 rest
      else if r.sma < lastSma * (1 - t) then
        ⟨lastDate, rawAt df lastDate, RevKind.peak⟩ :: revLoop df t r.sma r.date (-1) rest
      else
        revLoop df t lastSma lastDate 1 rest
    else if trend = -1 then
      if r.sma < lastSma then
        revLoop df t r.sma r.date (-1) rest
      else if r.sma > lastSma * (1 + t) then
        ⟨lastDate, rawAt df lastDate, RevKind.trough⟩ :: revLoop df t r.sma r.date 1 rest
      else
        revLoop df t lastSma lastDate (-1) rest
    else
      revLoop df t lastSma lastDate trend rest

/-- `find_sma_reversals(df, raw_col, sma_col, threshold)`: drop NaN rows,
return `[]` on an empty frame, otherwise run the trend state machine from the
first valid row (`trend = 0`, last extreme anchored at that row). -/
def find_sma_reversals (df : List Row) (t : ℚ) : List Reversal :=
  match validData df with
  | [] => []
  | v :: rest => revLoop df t v.sma v.date 0 (v :: rest)

/-- Bool test `b ≤ sma` on a possibly-NaN cell (NaN passes vacuously). -/
def smaGe (r : Row) (b : ℚ) : Bool :=
  match r.sma with
  | some s => decide (b ≤ s)
  | none => true

/-- Bool test `b < sma` on a possibly-NaN cell (NaN passes vacuously). -/
def smaGt (r : Row) (b : ℚ) : Bool :=
  match r.sma with
  | some s => decide (b < s)
  | none => true

/-- The 100-bar V-shaped frame: smoothed column falling linearly 100 → 50
over bars 0‥50 and rising linearly back up over bars 51‥99, raw close
column `2·i + 7`. -/
def vshape : List Row :=
  (List.range 100).map (fun i =>
    ⟨i, some ((2 * i : ℚ) + 7), some (if i ≤ 50 then (100 : ℚ) - i else (i : ℚ))⟩)

set_option maxRecDepth 40000 in
/-- C1: on the 100-bar V-shaped smoothed series with a 1% confirmation
threshold, `find_sma_reversals` emits exactly one event; it is a trough,
dated at bar 50 — the unique minimum of the smoothed column — and priced at
the raw close `107` observed at that date. -/
theorem claim1_vshape_single_trough :
    find_sma_reversals vshape (1 / 100) = [⟨50, 107, RevKind.trough⟩]
    ∧ vshape.length = 100
    ∧ vshape.all (fun r => smaGe r 50) = true
    ∧ vshape.all (fun r => (r.date == 50) || smaGt r 50) = true
    ∧ rawAt vshape 50 = 107 := by
  refine ⟨by with_unfolding_all rfl, by decide, by with_unfolding_all rfl,
    by with_unfolding_all rfl, by with_unfolding_all rfl⟩

/-- The state machine's output alternates in kind, and while the trend is
rising (falling) the next event it can emit is a peak (trough). -/
theorem revLoop_chain_head (df : List Row) (t : ℚ) :
    ∀ (rows : List VRow) (s : ℚ) (d : Nat) (tr : ℤ),
      List.Chain' (fun a b : Reversal => a.kind ≠ b.kind) (revLoop df t s d tr rows) ∧
      (∀ e, (revLoop df t s d tr rows).head? = some e →
        (tr = 1 → e.kind = RevKind.peak) ∧ (tr = -1 → e.kind = RevKind.trough)) := by
  intro rows
  induction rows with
  | nil =>
    intro s d tr
    refine ⟨by simp [revLoop], fun e he => ?_⟩
    simp [revLoop] at he
  | cons r rest ih =>
    intro s d tr
    rw [revLoop]
    split_ifs with h0 hup hdn h1 hgt hlt hm1 hlt2 hgt2
    · exact ⟨(ih _ _ _).1,
        fun e he => ⟨fun h => by exfalso; omega, fun h => by exfalso; omega⟩⟩
    · exact ⟨(ih _ _ _).1,
        fun e he => ⟨fun h => by exfalso; omega, fun h => by exfalso; omega⟩⟩
    · exact ⟨(ih _ _ _).1,
        fun e he => ⟨fun h => by exfalso; omega, fun h => by exfalso; omega⟩⟩
    · exact ⟨(ih _ _ _).1,
        fun e he => ⟨fun _ => ((ih r.sma r.date 1).2 e he).1 rfl,
          fun h => by exfalso; omega⟩⟩
    · constructor
      · refine List.chain'_cons'.mpr ⟨?_, (ih r.sma r.date (-1)).1⟩
        intro y hy
        have hk := ((ih r.sma r.date (-1)).2 y hy).2 rfl
        simp [hk]
      · intro e he
        simp only [List.head?_cons, Option.some.injEq] at he
        subst he
        exact ⟨fun _ => rfl, fun h => by exfalso; omega⟩
    · exact ⟨(ih _ _ _).1,
        fun e he => ⟨fun _ => ((ih s d 1).2 e he).1 rfl,
          fun h => by exfalso; omega⟩⟩
    · exact ⟨(ih _ _ _).1,
        fun e he => ⟨fun h => by exfalso; omega,
          fun _ => ((ih r.sma r.date (-1)).2 e he).2 rfl⟩⟩
    · constructor
      · refine List.chain'_cons'.mpr ⟨?_, (ih r.sma r.date 1).1⟩
        intro y hy
        have hk := ((ih r.sma r.date 1).2 y hy).1 rfl
        simp [hk]
      · intro e he
        simp only [List.head?_cons, Option.some.injEq] at he
        subst he
        exact ⟨fun h => by exfalso; omega, fun _ => rfl⟩
    · exact ⟨(ih _ _ _).1,
        fun e he => ⟨fun h => by exfalso; omega,
          fun _ => ((ih s d (-1)).2 e he).2 rfl⟩⟩
    · exact ⟨(ih s d tr).1, fun e he => (ih s d tr).2 e he⟩

/-- C3: for every input frame and threshold, the event sequence produced by
`find_sma_reversals` never has two consecutive events of the same kind:
peaks and troughs strictly alternate. -/
theorem claim3_alternation (df : List Row) (t : ℚ) :
    List.Chain' (fun a b : Reversal => a.kind ≠ b.kind) (find_sma_reversals df t) := by
  unfold find_sma_reversals
  cases hv : validData df with
  | nil => simp
  | cons v rest => exact (revLoop_chain_head df t (v :: rest) v.sma v.date 0).1

/-- Membership in `validData` comes from a frame row with both cells present. -/
theorem mem_validData {df : List Row} {vr : VRow} (h : vr ∈ validData df) :
    ∃ r ∈ df, r.date = vr.date ∧ r.raw = some vr.raw ∧ r.sma = some vr.sma := by
  unfold validData at h
  rcases List.mem_filterMap.mp h with ⟨r, hr, hf⟩
  rcases hra : r.raw with _ | a <;> rcases hsa : r.sma with _ | b <;>
      rw [hra, hsa] at hf
  · exact Option.noConfusion hf
  · exact Option.noConfusion hf
  · exact Option.noConfusion hf
  · simp only [Option.some.injEq] at hf
    subst hf
    exact ⟨r, hr, rfl, hra, hsa⟩

/-- With a duplicate-free date index, `rawAt` recovers the raw cell of any
row of the frame. -/
theorem rawAt_eq {df : List Row} (hn : (df.map Row.date).Nodup) {r : Row} (hr : r ∈ df)
    {a : ℚ} (ha : r.raw = some a) : rawAt df r.date = a := by
  unfold rawAt
  rcases hfind : df.find? (fun x => x.date == r.date) with _ | r'
  · exfalso
    have : ∀ x ∈ df, ¬((fun x : Row => x.date == r.date) x = true) :=
      List.find?_eq_none.mp hfind
    exact this r hr (by simp)
  · have hr' : r' ∈ df := List.mem_of_find?_eq_some hfind
    have hp : r'.date = r.date := by
      have := List.find?_some hfind
      simpa using this
    have heq : r' = r := List.inj_on_of_nodup_map hn hr' hr hp
    rw [hfind, heq]
    show r.raw.getD 0 = a
    rw [ha]
    rfl

/-- Invariant of the detector loop: provided the tracked extreme's date is
the date of some valid row and all remaining rows are valid rows of the
frame, every emitted event's price is the raw cell of the frame row at the
event's date. -/
theorem revLoop_price (df : List Row) (t : ℚ) (hn : (df.map Row.date).Nodup) :
    ∀ rows : List VRow, (∀ x ∈ rows, x ∈ validData df) →
      ∀ (s : ℚ) (d : Nat), (∃ vr ∈ validData df, vr.date = d) →
      ∀ (tr : ℤ), ∀ ev ∈ revLoop df t s d tr rows,
        ∃ r ∈ df, r.date = ev.date ∧ r.raw = some ev.price := by
  intro rows
  induction rows with
  | nil =>
    intro _ s d _ tr ev hev
    simp [revLoop] at hev
  | cons r rest ih =>
    intro hsub s d hd tr ev hev
    have hrsub : ∀ x ∈ rest, x ∈ validData df :=
      fun x hx => hsub x (List.mem_cons_of_mem _ hx)
    have hrv : r ∈ validData df := hsub r (List.mem_cons_self _ _)
    have hdr : ∃ vr ∈ validData df, vr.date = r.date := ⟨r, hrv, rfl⟩
    have hemit : ∀ k : RevKind, ev = ⟨d, rawAt df d, k⟩ →
        ∃ x ∈ df, x.date = ev.date ∧ x.raw = some ev.price := by
      intro k hk
      rcases hd with ⟨vr, hvr, hvd⟩
      rcases mem_validData hvr with ⟨rr, hrr, hdate, hraw, _⟩
      have hra : rawAt df rr.date = vr.raw := rawAt_eq hn hrr hraw
      refine ⟨rr, hrr, ?_, ?_⟩
      · rw [hk, hdate, hvd]
      · rw [hk]
        simp only []
        rw [← hvd, ← hdate, hra, hraw]
    rw [revLoop] at hev
    split_ifs at hev with h0 hup hdn h1 hgt hlt hm1 hlt2 hgt2
    · exact ih hrsub _ _ hdr _ ev hev
    · exact ih hrsub _ _ hdr _ ev hev
    · exact ih hrsub _ _ hd _ ev hev
    · exact ih hrsub _ _ hdr _ ev hev
    · rcases List.mem_cons.mp hev with hk | hev'
      · exact hemit RevKind.peak hk
      · exact ih hrsub _ _ hdr _ ev hev'
    · exact ih hrsub _ _ hd _ ev hev
    · exact ih hrsub _ _ hdr _ ev hev
    · rcases List.mem_cons.mp hev with hk | hev'
      · exact hemit RevKind.trough hk
      · exact ih hrsub _ _ hdr _ ev hev'
    · exact ih hrsub _ _ hd _ ev hev
    · exact ih hrsub _ _ hd _ ev hev

/-- C4: with a duplicate-free date index, every event emitted by
`find_sma_reversals` is dated at the stored extreme's date — a date of an
actual frame row — and its price is exactly the raw-close cell of the frame
at that date. -/
theorem claim4_price_is_raw_at_extreme (df : List Row) (t : ℚ)
    (hn : (df.map Row.date).Nodup) :
    ∀ ev ∈ find_sma_reversals df t,
      ∃ r ∈ df, r.date = ev.date ∧ r.raw = some ev.price := by
  intro ev hev
  unfold find_sma_reversals at hev
  rcases hv : validData df with _ | ⟨v, rest⟩ <;> rw [hv] at hev
  · simp at hev
  · refine revLoop_price df t hn (v :: rest) ?_ v.sma v.date ⟨v, ?_, rfl⟩ 0 ev hev
    · intro x hx
      rw [hv]
      exact hx
    · rw [hv]
      exact List.mem_cons_self _ _

/-- The three-row frame used to witness C4. -/
def wdf : List Row :=
  [⟨0, some 40, some 100⟩, ⟨1, some 42, some 80⟩, ⟨2, some 44, some 100⟩]

/-- Witness for C4: on `wdf` with a 1% threshold the detector emits the
trough `⟨1, 42⟩`, whose price 42 is indeed the raw cell of the row dated 1. -/
theorem claim4_witness :
    ∃ r ∈ wdf, r.date = 1 ∧ r.raw = some (42 : ℚ) :=
  claim4_price_is_raw_at_extreme wdf (1 / 100) (by decide)
    ⟨1, 42, RevKind.trough⟩ (by with_unfolding_all decide)

/-! ## Remote fetch (`SectorIndexv12.get_stock_data` retry loop) -/

/-- One bar of the fetched frame: Open/High/Low/Close/Volume cells, `none`
modelling a NaN/null cell. -/
structure OptBar where
  op : Option ℚ
  hi : Option ℚ
  lo : Option ℚ
  cl : Option ℚ
  vo : Option ℚ
deriving DecidableEq

/-- The `result['indicators']['quote'][0]` arrays of a chart response. -/
structure Quote where
  openA : List (Option ℚ)
  highA : List (Option ℚ)
  lowA : List (Option ℚ)
  closeA : List (Option ℚ)
  volumeA : List (Option ℚ)
deriving DecidableEq

/-- Outcome of one HTTP attempt.  `fail` covers transport errors, non-2xx
statuses, JSON errors and missing keys — everything that raises before the
frame is built; `ok` carries the parsed timestamp / quote / adjclose arrays. -/
inductive HttpResult where
  | fail
  | ok (ts : List Nat) (quote : Quote) (adjclose : Option (List (Option ℚ)))
deriving DecidableEq

/-- Forward-fill of one cell. -/
def fillCell (prev cur : Option ℚ) : Option ℚ :=
  match cur with
  | some v => some v
  | none => prev

/-- `DataFrame.ffill()`: forward-fill every column down the rows. -/
def ffillBars (prev : OptBar) : List OptBar → List OptBar
  | [] => []
  | b :: rest =>
    let f : OptBar := ⟨fillCell prev.op b.op, fillCell prev.hi b.hi, fillCell prev.lo b.lo,
      fillCell prev.cl b.cl, fillCell prev.vo b.vo⟩
    f :: ffillBars f rest

/-- Row filter of `dropna(how='all')`: at least one cell present. -/
def barPresent (b : OptBar) : Bool :=
  b.op.isSome || b.hi.isSome || b.lo.isSome || b.cl.isSome || b.vo.isSome

/-- The body of one fetch attempt after the HTTP call: pick adjusted close
when its length matches the timestamps, build the frame (a length mismatch
in any column raises, hence `error`), then `ffill().dropna(how='all')`. -/
def buildDf : HttpResult → Except Unit (List (Nat × OptBar))
  | HttpResult.fail => Except.error ()
  | HttpResult.ok ts q adj =>
    let close := match adj with
      | some a => if a.length = ts.length then a else q.closeA
      | none => q.closeA
    if q.openA.length = ts.length ∧ q.highA.length = ts.length
        ∧ q.lowA.length = ts.length ∧ close.length = ts.length
        ∧ q.volumeA.length = ts.length then
      let bars := (List.range ts.length).map (fun i =>
        OptBar.mk (q.openA.getD i none) (q.highA.getD i none) (q.lowA.getD i none)
          (close.getD i none) (q.volumeA.getD i none))
      Except.ok ((ts.zip (ffillBars ⟨none, none, none, none, none⟩ bars)).filter
        (fun p => barPresent p.2))
    else Except.error ()

/-- The `for attempt in range(1, 6)` loop: `attempt` is the current attempt
number, the second argument the number of attempts left.  A successful build
returns the frame at once; an exception sleeps `4 + attempt * 3` seconds
(recorded in the second component) and moves on.  Exhaustion returns the
empty-frame sentinel. -/
def fetchFrom (resp : Nat → HttpResult) : Nat → Nat → List (Nat × OptBar) × List Nat
  | _, 0 => ([], [])
  | attempt, n + 1 =>
    match buildDf (resp attempt) with
    | Except.ok df => (df, [])
    | Except.error _ =>
      let rest := fetchFrom resp (attempt + 1) n
      (rest.1, (4 + attempt * 3) :: rest.2)

/-- `get_stock_data` on a cache miss: up to 5 attempts starting at attempt 1.
Returns the frame together with the list of sleeps performed. -/
def get_stock_data (resp : Nat → HttpResult) : List (Nat × OptBar) × List Nat :=
  fetchFrom resp 1 5

/-- Unfolding step of the attempt loop. -/
theorem fetchFrom_succ (resp : Nat → HttpResult) (attempt n : Nat) :
    fetchFrom resp attempt (n + 1) =
      match buildDf (resp attempt) with
      | Except.ok df => (df, [])
      | Except.error _ =>
        ((fetchFrom resp (attempt + 1) n).1,
          (4 + attempt * 3) :: (fetchFrom resp (attempt + 1) n).2) := by
  rw [fetchFrom]

/-- A well-formed response whose timestamp array is empty. -/
def emptyTsResp : HttpResult := HttpResult.ok [] ⟨[], [], [], [], []⟩ none

/-- A well-formed one-bar response. -/
def oneBarResp : HttpResult :=
  HttpResult.ok [100] ⟨[some 1], [some 2], [some 1], [some 1], [some 5]⟩ none

/-- Oracle refuting C2: attempt 1 gets the empty-timestamp response, every
later attempt would get a usable one-bar response. -/
def cexResp (a : Nat) : HttpResult := if a = 1 then emptyTsResp else oneBarResp

/-- C2 counterexample: a response with an empty timestamp array is NOT
treated as a failed attempt.  `get_stock_data` returns the empty frame from
attempt 1 with no sleep and no retry, although attempt 2 would have
delivered a non-empty frame. -/
theorem claim2_counterexample :
    get_stock_data cexResp = ([], [])
    ∧ buildDf (cexResp 2) =
        Except.ok [(100, ⟨some 1, some 2, some 1, some 1, some 5⟩)]
    ∧ ([(100, (⟨some 1, some 2, some 1, some 1, some 5⟩ : OptBar))] :
        List (Nat × OptBar)) ≠ [] := by
  refine ⟨by with_unfolding_all rfl, by with_unfolding_all rfl, by decide⟩

/-- C2 as amended: any attempt that raises (transport error, parse error,
structurally unusable response, column-length mismatch) is slept on
(`4 + 3·attempt` seconds) and retried; when all 5 attempts raise, the
empty-frame sentinel is returned after the five sleeps, and no exception
reaches the caller. -/
theorem claim2_amended_retries (resp : Nat → HttpResult)
    (h : ∀ a, 1 ≤ a → a ≤ 5 → buildDf (resp a) = Except.error ()) :
    get_stock_data resp = ([], [7, 10, 13, 16, 19]) := by
  have h1 := h 1 (by norm_num) (by norm_num)
  have h2 := h 2 (by norm_num) (by norm_num)
  have h3 := h 3 (by norm_num) (by norm_num)
  have h4 := h 4 (by norm_num) (by norm_num)
  have h5 := h 5 (by norm_num) (by norm_num)
  show fetchFrom resp 1 5 = _
  rw [show (5 : Nat) = 4 + 1 from rfl, fetchFrom_succ, h1]
  rw [show (4 : Nat) = 3 + 1 from rfl, fetchFrom_succ, h2]
  rw [show (3 : Nat) = 2 + 1 from rfl, fetchFrom_succ, h3]
  rw [show (2 : Nat) = 1 + 1 from rfl, fetchFrom_succ, h4]
  rw [show (1 : Nat) = 0 + 1 from rfl, fetchFrom_succ, h5]
  rfl

/-- Oracle whose every response raises. -/
def allFailResp (_ : Nat) : HttpResult := HttpResult.fail

/-- Witness for the amended C2: with every attempt failing, the loop sleeps
7, 10, 13, 16, 19 seconds and returns the sentinel. -/
theorem claim2_amended_witness :
    get_stock_data allFailResp = ([], [7, 10, 13, 16, 19]) :=
  claim2_amended_retries allFailResp (fun _ _ _ => rfl)

/-! ## Durable cache (`SectorIndexv12.load_cached_data` / `save_cached_data`)

Timestamps are rational hours since an epoch; `dateOf` is the calendar-day
truncation performed by `.date()`. -/

/-- `.date()` of a timestamp in hours: the calendar day it falls in. -/
def dateOf (t : ℚ) : ℤ := ⌊t / 24⌋

/-- A persisted cache record: the pickled `(df, fetch_time)` pair, the frame
being a list of (timestamp-in-hours, close) bars. -/
structure CEntry where
  df : List (ℚ × ℚ)
  fetchTime : ℚ
deriving DecidableEq

/-- `df.index.min()`. -/
def minIdx : List (ℚ × ℚ) → ℚ
  | [] => 0
  | p :: rest => rest.foldl (fun m q => min m q.1) p.1

/-- `df.index.max()`. -/
def maxIdx : List (ℚ × ℚ) → ℚ
  | [] => 0
  | p :: rest => rest.foldl (fun m q => max m q.1) p.1

/-- `load_cached_data(ticker)` at clock time `now` (hours): `none` models
every Miss (missing file, expired, too small, too short a span, stale
content); otherwise the cached frame is returned. -/
def load_cached_data : Option CEntry → ℚ → Option (List (ℚ × ℚ))
  | none, _ => none
  | some e, now =>
    if now - e.fetchTime > 168 then none
    else if e.df.isEmpty ∨ e.df.length < 200 then none
    else if ((dateOf now - dateOf (minIdx e.df) : ℤ) : ℚ) / (1461 / 4) < 47 / 10
        ∨ e.df.length < 1100 then none
    else if dateOf now - dateOf (maxIdx e.df) > 7 then none
    else some e.df

/-- `save_cached_data(ticker, df)` at clock time `now`: an empty frame
returns at once leaving the stored entry untouched; otherwise the whole
entry is replaced by `(df, now)`. -/
def save_cached_data (prev : Option CEntry) (df : List (ℚ × ℚ)) (now : ℚ) :
    Option CEntry :=
  if df.isEmpty then prev else some ⟨df, now⟩

/-- A stale entry (latest bar more than 7 days old) always loads as a Miss,
whatever the other checks say. -/
theorem load_stale_none (e : CEntry) (now : ℚ)
    (hstale : 7 < dateOf now - dateOf (maxIdx e.df)) :
    load_cached_data (some e) now = none := by
  show (if now - e.fetchTime > 168 then none
    else if e.df.isEmpty ∨ e.df.length < 200 then none
    else if ((dateOf now - dateOf (minIdx e.df) : ℤ) : ℚ) / (1461 / 4) < 47 / 10
        ∨ e.df.length < 1100 then none
    else if dateOf now - dateOf (maxIdx e.df) > 7 then none
    else some e.df) = none
  split_ifs with h1 h2 h3 <;> rfl

/-- Storing a non-empty frame replaces the whole entry. -/
theorem save_nonempty (prev : Option CEntry) (df : List (ℚ × ℚ)) (now : ℚ)
    (h : df ≠ []) : save_cached_data prev df now = some ⟨df, now⟩ := by
  unfold save_cached_data
  rw [if_neg]
  simp [h]

/-- C5: an entry whose fetch-time is within the 168-hour window and that is
well-formed, large enough and covers the 4.7-year span is still a Miss when
its most recent bar's day lags the current day by more than 7 days. -/
theorem claim5_staleness_overrides_freshness (e : CEntry) (now : ℚ)
    (_hfresh : now - e.fetchTime ≤ 168)
    (_hne : e.df ≠ [])
    (_hsize : 1100 ≤ e.df.length)
    (_hspan : (47 : ℚ) / 10 ≤ ((dateOf now - dateOf (minIdx e.df) : ℤ) : ℚ) / (1461 / 4))
    (hstale : 7 < dateOf now - dateOf (maxIdx e.df)) :
    load_cached_data (some e) now = none :=
  load_stale_none e now hstale

/-- A 1100-bar frame at two-day spacing: bar `i` at hour `48·i`, so the bars
span days 0‥2198. -/
def bigDf : List (ℚ × ℚ) :=
  (List.range 1100).map (fun (i : ℕ) => ((48 * i : ℚ), 1))

theorem bigDf_length : bigDf.length = 1100 := by
  unfold bigDf
  rw [List.length_map, List.length_range]

theorem bigDf_ne_nil : bigDf ≠ [] := by
  intro h
  have := bigDf_length
  rw [h] at this
  simp at this

theorem foldl_min_le_init (l : List (ℚ × ℚ)) (m : ℚ) :
    l.foldl (fun a q => min a q.1) m ≤ m := by
  induction l generalizing m with
  | nil => exact le_refl m
  | cons q rest ih =>
    exact le_trans (ih (min m q.1)) (min_le_left _ _)

theorem le_foldl_min (l : List (ℚ × ℚ)) (m c : ℚ) (hm : c ≤ m)
    (h : ∀ q ∈ l, c ≤ q.1) : c ≤ l.foldl (fun a q => min a q.1) m := by
  induction l generalizing m with
  | nil => exact hm
  | cons q rest ih =>
    exact ih (min m q.1) (le_min hm (h q (List.mem_cons_self _ _)))
      (fun x hx => h x (List.mem_cons_of_mem _ hx))

theorem init_le_foldl_max (l : List (ℚ × ℚ)) (m : ℚ) :
    m ≤ l.foldl (fun a q => max a q.1) m := by
  induction l generalizing m with
  | nil => exact le_refl m
  | cons q rest ih =>
    exact le_trans (le_max_left _ _) (ih (max m q.1))

theorem foldl_max_le (l : List (ℚ × ℚ)) (m c : ℚ) (hm : m ≤ c)
    (h : ∀ q ∈ l, q.1 ≤ c) : l.foldl (fun a q => max a q.1) m ≤ c := by
  induction l generalizing m with
  | nil => exact hm
  | cons q rest ih =>
    exact ih (max m q.1) (max_le hm (h q (List.mem_cons_self _ _)))
      (fun x hx => h x (List.mem_cons_of_mem _ hx))

theorem foldl_min_le_mem (l : List (ℚ × ℚ)) (m : ℚ) {q : ℚ × ℚ} (hq : q ∈ l) :
    l.foldl (fun a x => min a x.1) m ≤ q.1 := by
  induction l generalizing m with
  | nil => cases hq
  | cons p rest ih =>
    rcases List.mem_cons.mp hq with rfl | hq'
    · exact le_trans (foldl_min_le_init rest (min m q.1)) (min_le_right _ _)
    · exact ih (min m p.1) hq'

theorem le_foldl_max_mem (l : List (ℚ × ℚ)) (m : ℚ) {q : ℚ × ℚ} (hq : q ∈ l) :
    q.1 ≤ l.foldl (fun a x => max a x.1) m := by
  induction l generalizing m with
  | nil => cases hq
  | cons p rest ih =>
    rcases List.mem_cons.mp hq with rfl | hq'
    · exact le_trans (le_max_right _ _) (init_le_foldl_max rest (max m q.1))
    · exact ih (max m p.1) hq'

/-- The minimum index is attained: it is a lower bound of every timestamp. -/
theorem minIdx_le_mem {l : List (ℚ × ℚ)} {q : ℚ × ℚ} (hq : q ∈ l) :
    minIdx l ≤ q.1 := by
  rcases l with _ | ⟨p, rest⟩
  · cases hq
  · show List.foldl (fun a x => min a x.1) p.1 rest ≤ q.1
    rcases List.mem_cons.mp hq with rfl | hq'
    · exact foldl_min_le_init rest q.1
    · exact foldl_min_le_mem rest p.1 hq'

/-- Any common lower bound of the timestamps bounds the minimum index. -/
theorem le_minIdx_all {l : List (ℚ × ℚ)} (hl : l ≠ []) {c : ℚ}
    (h : ∀ q ∈ l, c ≤ q.1) : c ≤ minIdx l := by
  rcases l with _ | ⟨p, rest⟩
  · exact absurd rfl hl
  · show c ≤ List.foldl (fun a x => min a x.1) p.1 rest
    exact le_foldl_min rest p.1 c (h p (List.mem_cons_self _ _))
      (fun q hq => h q (List.mem_cons_of_mem _ hq))

/-- The maximum index dominates every timestamp. -/
theorem le_maxIdx_mem {l : List (ℚ × ℚ)} {q : ℚ × ℚ} (hq : q ∈ l) :
    q.1 ≤ maxIdx l := by
  rcases l with _ | ⟨p, rest⟩
  · cases hq
  · show q.1 ≤ List.foldl (fun a x => max a x.1) p.1 rest
    rcases List.mem_cons.mp hq with rfl | hq'
    · exact init_le_foldl_max rest q.1
    · exact le_foldl_max_mem rest p.1 hq'

/-- Any common upper bound of the timestamps bounds the maximum index. -/
theorem maxIdx_le_all {l : List (ℚ × ℚ)} (hl : l ≠ []) {c : ℚ}
    (h : ∀ q ∈ l, q.1 ≤ c) : maxIdx l ≤ c := by
  rcases l with _ | ⟨p, rest⟩
  · exact absurd rfl hl
  · show List.foldl (fun a x => max a x.1) p.1 rest ≤ c
    exact foldl_max_le rest p.1 c (h p (List.mem_cons_self _ _))
      (fun q hq => h q (List.mem_cons_of_mem _ hq))

/-- Every timestamp of `bigDf` is between 0 and 52752. -/
theorem bigDf_fst_bounds : ∀ q ∈ bigDf, (0 : ℚ) ≤ q.1 ∧ q.1 ≤ 52752 := by
  intro q hq
  rcases List.mem_map.mp hq with ⟨i, hi, rfl⟩
  have hilt : i < 1100 := List.mem_range.mp hi
  have hle : (i : ℚ) ≤ 1099 := by
    have h9 : i ≤ 1099 := by omega
    exact_mod_cast h9
  constructor
  · show (0 : ℚ) ≤ 48 * (i : ℚ)
    positivity
  · show 48 * (i : ℚ) ≤ 52752
    nlinarith

theorem minIdx_bigDf : minIdx bigDf = 0 := by
  have hmem : ((0 : ℚ), (1 : ℚ)) ∈ bigDf := by
    refine List.mem_map.mpr ⟨0, by simp, ?_⟩
    norm_num
  refine le_antisymm ?_ (le_minIdx_all bigDf_ne_nil ?_)
  · simpa using minIdx_le_mem hmem
  · exact fun q hq => (bigDf_fst_bounds q hq).1

theorem maxIdx_bigDf : maxIdx bigDf = 52752 := by
  have hmem : ((52752 : ℚ), (1 : ℚ)) ∈ bigDf := by
    refine List.mem_map.mpr ⟨1099, by simp, ?_⟩
    norm_num
  refine le_antisymm (maxIdx_le_all bigDf_ne_nil ?_) ?_
  · exact fun q hq => (bigDf_fst_bounds q hq).2
  · simpa using le_maxIdx_mem hmem

theorem dateOf_zero : dateOf 0 = 0 := by
  unfold dateOf
  norm_num

theorem dateOf_52752 : dateOf 52752 = 2198 := by
  unfold dateOf
  rw [show ((52752 : ℚ) / 24) = ((2198 : ℤ) : ℚ) by norm_num]
  exact Int.floor_intCast _

theorem dateOf_53472 : dateOf 53472 = 2228 := by
  unfold dateOf
  rw [show ((53472 : ℚ) / 24) = ((2228 : ℤ) : ℚ) by norm_num]
  exact Int.floor_intCast _

set_option maxRecDepth 8000 in
/-- Witness for C5: `bigDf` stored at hour 53472 (day 2228, 30 days after
its last bar) is fresh, large and long-spanned, yet `load` is a Miss. -/
theorem claim5_witness :
    load_cached_data (some ⟨bigDf, 53472⟩) 53472 = none := by
  refine claim5_staleness_overrides_freshness _ _ ?_ ?_ ?_ ?_ ?_
  · show (53472 : ℚ) - 53472 ≤ 168
    norm_num
  · show bigDf ≠ []
    exact bigDf_ne_nil
  · show 1100 ≤ bigDf.length
    exact bigDf_length.ge
  · show (47 : ℚ) / 10 ≤ ((dateOf 53472 - dateOf (minIdx bigDf) : ℤ) : ℚ) / (1461 / 4)
    rw [minIdx_bigDf, dateOf_zero, dateOf_53472]
    norm_num
  · show (7 : ℤ) < dateOf 53472 - dateOf (maxIdx bigDf)
    rw [maxIdx_bigDf, dateOf_52752, dateOf_53472]
    norm_num

set_option maxRecDepth 8000 in
/-- C6 counterexample: `bigDf` is non-empty, has 1100 ≥ 1100 bars and spans
more than 4.7 years before hour 53472, so it meets every requirement the
claim states; yet storing it at hour 53472 and loading immediately yields a
Miss (its last bar lags by 30 days), not the stored series. -/
theorem claim6_counterexample :
    save_cached_data none bigDf 53472 = some ⟨bigDf, 53472⟩
    ∧ load_cached_data (save_cached_data none bigDf 53472) 53472 = none
    ∧ bigDf ≠ []
    ∧ 1100 ≤ bigDf.length
    ∧ (47 : ℚ) / 10 ≤ ((dateOf 53472 - dateOf (minIdx bigDf) : ℤ) : ℚ) / (1461 / 4) := by
  have hsv : save_cached_data none bigDf 53472 = some ⟨bigDf, 53472⟩ :=
    save_nonempty none bigDf 53472 bigDf_ne_nil
  refine ⟨hsv, ?_, bigDf_ne_nil, bigDf_length.ge, ?_⟩
  · rw [hsv]
    exact load_stale_none ⟨bigDf, 53472⟩ 53472
      (by rw [maxIdx_bigDf, dateOf_52752, dateOf_53472]; norm_num)
  · rw [minIdx_bigDf, dateOf_zero, dateOf_53472]
    norm_num

/-- C6 as amended: the round-trip also needs the staleness check to pass —
for a non-empty series of at least 1100 bars whose earliest bar is at least
4.7 years before `now` AND whose most recent bar is at most 7 days before
`now`, `store` followed immediately by `load` returns exactly the series. -/
theorem claim6_roundtrip_amended (prev : Option CEntry) (S : List (ℚ × ℚ)) (now : ℚ)
    (hne : S ≠ [])
    (hsize : 1100 ≤ S.length)
    (hspan : (47 : ℚ) / 10 ≤ ((dateOf now - dateOf (minIdx S) : ℤ) : ℚ) / (1461 / 4))
    (hrecent : dateOf now - dateOf (maxIdx S) ≤ 7) :
    load_cached_data (save_cached_data prev S now) now = some S := by
  have hsv : save_cached_data prev S now = some ⟨S, now⟩ := by
    unfold save_cached_data
    rw [if_neg]
    simp [List.isEmpty_iff, hne]
  rw [hsv]
  show (if now - now > 168 then none
    else if S.isEmpty ∨ S.length < 200 then none
    else if ((dateOf now - dateOf (minIdx S) : ℤ) : ℚ) / (1461 / 4) < 47 / 10
        ∨ S.length < 1100 then none
    else if dateOf now - dateOf (maxIdx S) > 7 then none
    else some S) = some S
  split_ifs with h1 h2 h3 h4
  · exfalso; simp at h1; linarith
  · exfalso
    rcases h2 with h2 | h2
    · exact hne (List.isEmpty_iff.mp h2)
    · omega
  · exfalso
    rcases h3 with h3 | h3
    · linarith
    · omega
  · exact absurd h4 (not_lt.mpr hrecent)
  · rfl

set_option maxRecDepth 8000 in
/-- Witness for the amended C6: storing `bigDf` at hour 52752 — the very day
of its last bar — and loading immediately returns `bigDf` itself. -/
theorem claim6_amended_witness :
    load_cached_data (save_cached_data none bigDf 52752) 52752 = some bigDf :=
  claim6_roundtrip_amended none bigDf 52752
    bigDf_ne_nil
    bigDf_length.ge
    (by rw [minIdx_bigDf, dateOf_zero, dateOf_52752]; norm_num)
    (by rw [maxIdx_bigDf, dateOf_52752]; norm_num)

/-- C10: storing an empty series writes nothing — the persisted entry is
returned unchanged, and any later load observes exactly what it would have
observed before the store. -/
theorem claim10_store_empty_is_noop (prev : Option CEntry) (t : ℚ) :
    save_cached_data prev [] t = prev
    ∧ ∀ now : ℚ, load_cached_data (save_cached_data prev [] t) now =
        load_cached_data prev now := by
  have hsv : save_cached_data prev [] t = prev := by
    unfold save_cached_data
    rfl
  exact ⟨hsv, fun now => by rw [hsv]⟩

/-! ## Indicators (`SectorIndexv12.calculate_indicators`) -/

/-- `df['Close'].diff()` at row `i` (NaN at row 0). -/
def delta (c : List ℚ) (i : Nat) : Option ℚ :=
  if i = 0 then none else some (c.getD i 0 - c.getD (i - 1) 0)

/-- `rolling(14).mean()` of a NaN-able series at row `i`: without
`min_periods` the full 14-value window must be present. -/
def rollMean14 (f : Nat → Option ℚ) (i : Nat) : Option ℚ :=
  if 13 ≤ i ∧ ((List.range 14).map (fun k => i - k)).all (fun j => (f j).isSome) then
    some ((((List.range 14).map (fun k => i - k)).map (fun j => (f j).getD 0)).sum / 14)
  else none

/-- `gain = delta.clip(lower=0).rolling(14).mean()`. -/
def gain (c : List ℚ) : Nat → Option ℚ :=
  rollMean14 (fun j => (delta c j).map (fun x => max x 0))

/-- `loss = (-delta.clip(upper=0)).rolling(14).mean()`. -/
def loss (c : List ℚ) : Nat → Option ℚ :=
  rollMean14 (fun j => (delta c j).map (fun x => max (-x) 0))

/-- `loss.replace(0, np.nan)`. -/
def lossRep (c : List ℚ) (i : Nat) : Option ℚ :=
  (loss c i).bind (fun b => if b = 0 then none else some b)

/-- `rs = gain / loss.replace(0, np.nan)` (NaN-propagating division). -/
def rs (c : List ℚ) (i : Nat) : Option ℚ :=
  match gain c i, lossRep c i with
  | some a, some b => some (a / b)
  | _, _ => none

/-- `df['RSI'] = (100 - 100 / (1 + rs)).fillna(50)`. -/
def rsi (c : List ℚ) (i : Nat) : ℚ :=
  ((rs c i).map (fun r => 100 - 100 / (1 + r))).getD 50

/-- A rolling mean of a pointwise non-negative series is non-negative. -/
theorem rollMean14_nonneg (f : Nat → Option ℚ)
    (hf : ∀ j a, f j = some a → 0 ≤ a) (i : Nat) (a : ℚ)
    (h : rollMean14 f i = some a) : 0 ≤ a := by
  unfold rollMean14 at h
  split_ifs at h with hc
  · simp only [Option.some.injEq] at h
    subst h
    apply div_nonneg _ (by norm_num)
    apply List.sum_nonneg
    intro x hx
    rcases List.mem_map.mp hx with ⟨j, _, rfl⟩
    rcases hfj : f j with _ | v
    · simp [hfj]
    · simpa [hfj] using hf j v hfj

theorem gain_nonneg (c : List ℚ) (i : Nat) (a : ℚ) (h : gain c i = some a) :
    0 ≤ a := by
  refine rollMean14_nonneg _ ?_ i a h
  intro j x hx
  rcases hd : delta c j with _ | v <;> rw [hd] at hx
  · exact Option.noConfusion hx
  · simp only [Option.map_some', Option.some.injEq] at hx
    subst hx
    exact le_max_right _ _

theorem loss_nonneg (c : List ℚ) (i : Nat) (a : ℚ) (h : loss c i = some a) :
    0 ≤ a := by
  refine rollMean14_nonneg _ ?_ i a h
  intro j x hx
  rcases hd : delta c j with _ | v <;> rw [hd] at hx
  · exact Option.noConfusion hx
  · simp only [Option.map_some', Option.some.injEq] at hx
    subst hx
    exact le_max_right _ _

/-- Inversion for a defined gain/loss ratio. -/
theorem rs_eq_some {c : List ℚ} {i : Nat} {r : ℚ} (h : rs c i = some r) :
    ∃ a b, gain c i = some a ∧ loss c i = some b ∧ b ≠ 0 ∧ r = a / b := by
  unfold rs at h
  rcases hg : gain c i with _ | a <;> rw [hg] at h
  · exact Option.noConfusion h
  · rcases hl : lossRep c i with _ | b <;> rw [hl] at h
    · exact Option.noConfusion h
    · simp only [Option.some.injEq] at h
      unfold lossRep at hl
      rcases hl2 : loss c i with _ | b' <;> rw [hl2] at hl
      · exact Option.noConfusion hl
      · simp only [Option.some_bind] at hl
        by_cases hb0 : b' = 0
        · rw [if_pos hb0] at hl
          exact Option.noConfusion hl
        · rw [if_neg hb0] at hl
          simp only [Option.some.injEq] at hl
          subst hl
          exact ⟨a, b', rfl, rfl, hb0, h.symm⟩

/-- C7: for every close series of length at least the 14-bar lookback, the
RSI column is defined at every row, lies in [0, 100], and equals the
neutral midpoint 50 wherever the gain/loss ratio is undefined (zero average
loss or window warm-up). -/
theorem claim7_rsi_bounds (c : List ℚ) (_hlen : 14 ≤ c.length) :
    ∀ i, i < c.length →
      (0 ≤ rsi c i ∧ rsi c i ≤ 100) ∧ (rs c i = none → rsi c i = 50) := by
  intro i _
  constructor
  · rcases hr : rs c i with _ | r
    · rw [rsi, hr]
      norm_num
    · rcases rs_eq_some hr with ⟨a, b, hg, hl, hb0, rfl⟩
      have ha : 0 ≤ a := gain_nonneg c i a hg
      have hb : 0 < b := lt_of_le_of_ne (loss_nonneg c i b hl) (Ne.symm hb0)
      have hr0 : 0 ≤ a / b := div_nonneg ha hb.le
      have h1r : (1 : ℚ) ≤ 1 + a / b := by linarith
      have hdivpos : 0 ≤ 100 / (1 + a / b) := div_nonneg (by norm_num) (by linarith)
      have hdivle : 100 / (1 + a / b) ≤ 100 := div_le_self (by norm_num) h1r
      rw [rsi, hr]
      constructor
      · simp only [Option.map_some', Option.getD_some]
        linarith
      · simp only [Option.map_some', Option.getD_some]
        linarith
  · intro hnone
    rw [rsi, hnone]
    rfl

/-- Witness for C7 at a concrete 14-bar constant series and row 0 (warm-up:
the ratio is undefined there and the RSI is the neutral 50). -/
theorem claim7_witness :
    (0 ≤ rsi (List.replicate 14 (0 : ℚ)) 0 ∧ rsi (List.replicate 14 (0 : ℚ)) 0 ≤ 100)
    ∧ (rs (List.replicate 14 (0 : ℚ)) 0 = none → rsi (List.replicate 14 (0 : ℚ)) 0 = 50) :=
  claim7_rsi_bounds (List.replicate 14 (0 : ℚ)) (by simp) 0 (by norm_num)

/-! ## Benchmark-relative columns of `calculate_indicators` -/

/-- NaN-propagating subtraction. -/
def optSub : Option ℚ → Option ℚ → Option ℚ
  | some a, some b => some (a - b)
  | _, _ => none

/-- `spy_df['Close'].reindex(df.index)` at one date: exact-date lookup. -/
def spyAt (s : List (Nat × ℚ)) (d : Nat) : Option ℚ :=
  (s.find? (fun p => p.1 == d)).map Prod.snd

/-- Forward fill of a NaN-able column. -/
def ffillCol (carry : Option ℚ) : List (Option ℚ) → List (Option ℚ)
  | [] => []
  | x :: xs =>
    match x with
    | some v => some v :: ffillCol (some v) xs
    | none => carry :: ffillCol carry xs

/-- `aligned = spy_df['Close'].reindex(df.index).ffill()`. -/
def alignedList (df s : List (Nat × ℚ)) : List (Option ℚ) :=
  ffillCol none (df.map (fun p => spyAt s p.1))

/-- The aligned benchmark value at positional row `i`. -/
def alignedAt (df s : List (Nat × ℚ)) (i : Nat) : Option ℚ :=
  (alignedList df s).getD i none

/-- `df['Close']` at positional row `i`. -/
def closeAt (df : List (Nat × ℚ)) (i : Nat) : ℚ := (df.getD i (0, 0)).2

/-- `df['Return'] = df['Close'].pct_change() * 100`. -/
def retC (df : List (Nat × ℚ)) (i : Nat) : Option ℚ :=
  if i = 0 then none
  else some ((closeAt df i / closeAt df (i - 1) - 1) * 100)

/-- `aligned.pct_change()`. -/
def alignedPct (df s : List (Nat × ℚ)) (i : Nat) : Option ℚ :=
  if i = 0 then none
  else
    match alignedAt df s i, alignedAt df s (i - 1) with
    | some x, some y => some (x / y - 1)
    | _, _ => none

/-- `df['Rel_Line'] = df['Close'] / aligned`. -/
def relLine (df s : List (Nat × ℚ)) (i : Nat) : Option ℚ :=
  (alignedAt df s i).map (fun b => closeAt df i / b)

/-- `df['Rel_Perf_3M'] = df['Rel_Line'].pct_change(63) * 100`. -/
def relPerf3M (df s : List (Nat × ℚ)) (i : Nat) : Option ℚ :=
  if i < 63 then none
  else
    match relLine df s i, relLine df s (i - 63) with
    | some x, some y => some ((x / y - 1) * 100)
    | _, _ => none

/-- The two benchmark-relative output columns of `calculate_indicators`. -/
structure IndCols where
  alpha : Nat → Option ℚ
  relPerf : Nat → Option ℚ

/-- The `Alpha` / `Rel_Perf_3M` columns of `calculate_indicators(df, spy_df)`:
the benchmark branch runs when the benchmark is supplied, non-empty and
aligns onto at least one row (`aligned.notna().any()`); `Alpha` is then
`(Return - aligned.pct_change()*100).fillna(0)` and `Rel_Perf_3M` the
63-row percent change of the ratio line.  In every degraded case both
columns are constant zero. -/
def calculate_indicators (df : List (Nat × ℚ)) (spy : Option (List (Nat × ℚ))) :
    IndCols :=
  match spy with
  | some s =>
    if s.isEmpty then ⟨fun _ => some 0, fun _ => some 0⟩
    else if (alignedList df s).any Option.isSome then
      ⟨fun i => some ((optSub (retC df i)
          ((alignedPct df s i).map (fun p => p * 100))).getD 0),
        fun i => relPerf3M df s i⟩
    else ⟨fun _ => some 0, fun _ => some 0⟩
  | none => ⟨fun _ => some 0, fun _ => some 0⟩

/-- C8: when the benchmark series is absent or empty, `calculate_indicators`
raises nothing (it is total) and the `Alpha` and `Rel_Perf_3M` columns are
exactly zero at every row. -/
theorem claim8_benchmark_degradation (df : List (Nat × ℚ))
    (spy : Option (List (Nat × ℚ))) (h : spy = none ∨ spy = some []) :
    ∀ i, (calculate_indicators df spy).alpha i = some 0
      ∧ (calculate_indicators df spy).relPerf i = some 0 := by
  intro i
  rcases h with rfl | rfl
  · exact ⟨rfl, rfl⟩
  · constructor <;> simp [calculate_indicators]

/-- Witness for C8 at a concrete one-row frame with a missing benchmark. -/
theorem claim8_witness :
    (calculate_indicators [(0, 5)] none).alpha 0 = some 0
    ∧ (calculate_indicators [(0, 5)] none).relPerf 0 = some 0 :=
  claim8_benchmark_degradation [(0, 5)] none (Or.inl rfl) 0

/-! ## Trend classifier (`SectorIndexv12.determine_trend_state`) -/

/-- The five trend labels. -/
inductive TrendLabel where
  | LEADING
  | WEAKENING
  | IMPROVING
  | LAGGING
  | Neutral
deriving DecidableEq

/-- The latest indicator row as consumed by the classifier: close price, the
chosen SMA (SMA 50), and the possibly-NaN `Rel_Perf_3M` value. -/
structure TrendRow where
  close : ℚ
  sma : ℚ
  relPerf : Option ℚ
deriving DecidableEq

/-- `rel > 0` under pandas semantics: a NaN comparison is false. -/
def relPos (r : Option ℚ) : Bool :=
  match r with
  | some v => decide (0 < v)
  | none => false

/-- `rel < 0` under pandas semantics: a NaN comparison is false. -/
def relNeg (r : Option ℚ) : Bool :=
  match r with
  | some v => decide (v < 0)
  | none => false

/-- `determine_trend_state(df)`: Neutral on an empty frame, otherwise the
strict-inequality decision table over the last row. -/
def determine_trend_state (rows : List TrendRow) : TrendLabel × String :=
  match rows.getLast? with
  | none => (TrendLabel.Neutral, "#8a94a6")
  | some cur =>
    if cur.close > cur.sma ∧ relPos cur.relPerf = true then
      (TrendLabel.LEADING, "#26a69a")
    else if cur.close > cur.sma ∧ relNeg cur.relPerf = true then
      (TrendLabel.WEAKENING, "#F7DC6F")
    else if cur.close < cur.sma ∧ relPos cur.relPerf = true then
      (TrendLabel.IMPROVING, "#45B7D1")
    else if cur.close < cur.sma ∧ relNeg cur.relPerf = true then
      (TrendLabel.LAGGING, "#ef5350")
    else (TrendLabel.Neutral, "#8a94a6")

/-- C9: on a non-empty frame whose last row has close price exactly equal to
the SMA, or relative performance exactly zero, all four strict quadrant
tests fail and the classifier returns Neutral. -/
theorem claim9_ties_are_neutral (rows : List TrendRow) (cur : TrendRow)
    (hlast : rows.getLast? = some cur)
    (h : cur.close = cur.sma ∨ cur.relPerf = some 0) :
    determine_trend_state rows = (TrendLabel.Neutral, "#8a94a6") := by
  have hred : determine_trend_state rows =
      (if cur.close > cur.sma ∧ relPos cur.relPerf = true then
        (TrendLabel.LEADING, "#26a69a")
      else if cur.close > cur.sma ∧ relNeg cur.relPerf = true then
        (TrendLabel.WEAKENING, "#F7DC6F")
      else if cur.close < cur.sma ∧ relPos cur.relPerf = true then
        (TrendLabel.IMPROVING, "#45B7D1")
      else if cur.close < cur.sma ∧ relNeg cur.relPerf = true then
        (TrendLabel.LAGGING, "#ef5350")
      else (TrendLabel.Neutral, "#8a94a6")) := by
    unfold determine_trend_state
    rw [hlast]
  rcases h with he | he
  · rw [hred, he]
    simp
  · rw [hred, he]
    simp [relPos, relNeg]

/-- Witness for C9: a single row with close equal to the SMA and positive
relative performance classifies as Neutral. -/
theorem claim9_witness :
    determine_trend_state [⟨5, 5, some 1⟩] = (TrendLabel.Neutral, "#8a94a6") :=
  claim9_ties_are_neutral [⟨5, 5, some 1⟩] ⟨5, 5, some 1⟩ rfl (Or.inl rfl)
